import Mathlib

/-!
Verification of the Ghidra export script in src/export_decomp.py.

The script is a thin sequential loop driven by a host runtime: it reads the
current program's name and language identifier, opens a decompiler interface,
iterates all functions, decompiles each, and writes the completed results to
a single output file, then prints a completion message and disposes the
decompiler interface.

The embedding below models the host environment as a structure of values and
oracles (program name, language id, the function iterator's yield list, the
per-function decompile results, and failure oracles for the operations that
can raise), and the script as a pure function from that environment to a run
record: the ordered event trace, the ordered list of strings written to the
output file, the final error (an uncaught exception), and the printed lines.
-/

set_option maxHeartbeats 1000000

namespace ExportDecomp

/-- A decompile result returned by the host decompiler for one function:
whether decompilation completed, and the C-like text of the decompiled
function (the value of result.getDecompiledFunction().getC()). -/
structure DecompResult where
  decompileCompleted : Bool
  decompiledC : String
deriving Repr, DecidableEq

/-- Host function objects are opaque; we identify them by a numeric id. -/
abbrev GFunc := Nat

/-- The host-provided environment of one run.  The first four fields are the
program object's observable behaviour (name, language id, the sequence the
function manager's iterator yields, and the decompiler's per-function
results).  The three failure oracles model the external world: whether
opening the program raises, whether opening the output file raises (e.g. the
hardcoded directory does not exist), and which write call (0-based, counting
attempted f.write calls) raises, if any.  The last three fields model
surfaces the script never reads: command-line arguments, network input and
configuration values. -/
structure Host where
  programName : String
  languageID : String
  functions : List GFunc
  decompile : GFunc → DecompResult
  openProgramFails : Bool
  openFileFails : Bool
  writeFailsAt : Option Nat
  cmdlineArgs : List String
  networkInput : List String
  configValues : List (String × String)

/-- Observable events of a run, in program order. -/
inductive Event where
  | openProgram : Event
  | openFile : String → Event
  | write : String → Event
  | decompileCall : GFunc → Event
  | closeFile : Event
  | printMsg : String → Event
  | dispose : Event
deriving Repr, DecidableEq

/-- Uncaught exceptions the modelled operations can raise. -/
inductive ScriptError where
  | openProgramFailed : ScriptError
  | openFileFailed : ScriptError
  | writeFailed : ScriptError
deriving Repr, DecidableEq

/-- The hardcoded output directory (line 6 of the script). -/
def output_dir : String := "/Users/inoki/Builds/srcs/Rosetta2"

/-- The output file path: os.path.join of the directory and
the f-string interpolation of the program name (line 11). -/
def outPath (h : Host) : String :=
  output_dir ++ "/" ++ h.programName ++ "_decomp.c"

/-- The first header line written (line 19). -/
def header1 (h : Host) : String :=
  "// Decompiled code for " ++ h.programName ++ "\n"

/-- The second header line written, ending with an extra blank line
(line 20). -/
def header2 (h : Host) : String :=
  "// Language: " ++ h.languageID ++ "\n\n"

/-- The completion message printed at line 30. -/
def finalMsg (h : Host) : String :=
  "Decompiled code written to " ++ outPath h

/-- Mutable state while the output file is open: the event trace so far, the
strings successfully written so far, the number of write calls attempted so
far, and the pending uncaught exception, if one was raised. -/
structure WState where
  events : List Event
  chunks : List String
  wcount : Nat
  err : Option ScriptError
deriving Repr, DecidableEq

/-- One f.write call.  A raised exception is sticky: once err is set no
further operation runs.  A failing write writes nothing. -/
def writeStep (h : Host) (s : String) (st : WState) : WState :=
  if st.err.isSome then st
  else if h.writeFailsAt = some st.wcount then
    { st with wcount := st.wcount + 1, err := some ScriptError.writeFailed }
  else
    { st with events := st.events ++ [Event.write s],
              chunks := st.chunks ++ [s],
              wcount := st.wcount + 1 }

/-- One iteration of the for-loop (lines 23-28): request decompilation of f,
and if the result reports completion, write its C text followed by the
blank-line separator. -/
def funcStep (h : Host) (f : GFunc) (st : WState) : WState :=
  if st.err.isSome then st
  else
    let st1 := { st with events := st.events ++ [Event.decompileCall f] }
    let r := h.decompile f
    if r.decompileCompleted then
      writeStep h "\n\n" (writeStep h r.decompiledC st1)
    else st1

/-- The whole for-loop over the iterator's yields. -/
def loopFuncs (h : Host) : List GFunc → WState → WState
  | [], st => st
  | f :: fs, st => loopFuncs h fs (funcStep h f st)

/-- The observable outcome of one run of the script. -/
structure RunResult where
  events : List Event
  chunks : List String
  error : Option ScriptError
  printed : List String
deriving Repr, DecidableEq

/-- Whether the run reaches line 18 and the output file is opened
successfully. -/
def fileOpened (h : Host) : Bool :=
  !h.openProgramFails && !h.openFileFails

/-- The state on entry to the with-block body: the program was opened and
the output file opened (and truncated); nothing written yet. -/
def initState (h : Host) : WState :=
  ⟨[Event.openProgram, Event.openFile (outPath h)], [], 0, none⟩

/-- The state at the end of the with-block body: the two header writes
followed by the for-loop over all yielded functions. -/
def mainState (h : Host) : WState :=
  loopFuncs h h.functions
    (writeStep h (header2 h) (writeStep h (header1 h) (initState h)))

/-- The script, lines 7-31: get the program, open the decompiler interface
on it, open the output file in truncating mode, write the two header lines,
loop over all functions, and on normal exit of the with-block print the
completion message and dispose the interface.  The with-block closes the
file on every exit, also when an exception escapes; an escaping exception
skips the print and the dispose. -/
def runScript (h : Host) : RunResult :=
  if h.openProgramFails then
    ⟨[Event.openProgram], [], some ScriptError.openProgramFailed, []⟩
  else if h.openFileFails then
    ⟨[Event.openProgram], [], some ScriptError.openFileFailed, []⟩
  else if (mainState h).err.isSome then
    ⟨(mainState h).events ++ [Event.closeFile], (mainState h).chunks,
     (mainState h).err, []⟩
  else
    ⟨(mainState h).events ++
       [Event.closeFile, Event.printMsg (finalMsg h), Event.dispose],
     (mainState h).chunks, none, [finalMsg h]⟩

/-- Concatenation of a list of strings, front to back. -/
def concatAll : List String → String
  | [] => ""
  | s :: l => s ++ concatAll l

/-- The contents of the output file at the end of a run in which it was
opened: the concatenation of the successful writes, in order. -/
def writtenContent (h : Host) : String :=
  concatAll (runScript h).chunks

/-- The effect of one run on the file system (paths to contents).  Opening
in "w" mode truncates, so when the file is opened its final contents are
exactly the writes of this run; when the open is never reached or fails the
file system is untouched. -/
def runFS (h : Host) (fs : String → Option String) : String → Option String :=
  if fileOpened h then
    fun p => if p = outPath h then some (writtenContent h) else fs p
  else fs

/-- The persistent world a run can touch: the file system, the standard
output, and the host-owned program environment. -/
structure World where
  fs : String → Option String
  stdout : List String
  hostProgram : Host

/-- One run of the script against the world's host. -/
def runWorld (w : World) : World :=
  { fs := runFS w.hostProgram w.fs,
    stdout := w.stdout ++ (runScript w.hostProgram).printed,
    hostProgram := w.hostProgram }

/-- The strings a function contributes to the output file: its decompiled C
text and the separator when decompilation completed, nothing otherwise. -/
def contribChunks (h : Host) (f : GFunc) : List String :=
  if (h.decompile f).decompileCompleted then
    [(h.decompile f).decompiledC, "\n\n"]
  else []

/-- The events one loop iteration emits: the decompile request, then the two
writes when the result reports completion. -/
def contribEvents (h : Host) (f : GFunc) : List Event :=
  Event.decompileCall f ::
    (if (h.decompile f).decompileCompleted then
      [Event.write (h.decompile f).decompiledC, Event.write "\n\n"]
    else [])

/-- The decompiled texts of the functions whose decompilation completed, in
iterator order. -/
def completedBlocks (h : Host) : List String :=
  (h.functions.filter (fun f => (h.decompile f).decompileCompleted)).map
    (fun f => (h.decompile f).decompiledC)

/-- The functions for which decompilation was requested, in trace order. -/
def callsOf : List Event → List GFunc
  | [] => []
  | Event.decompileCall f :: l => f :: callsOf l
  | _ :: l => callsOf l

/-- Events that can occur strictly inside the with-block body: file writes
and decompile requests. -/
def isBodyEvent : Event → Bool
  | Event.write _ => true
  | Event.decompileCall _ => true
  | _ => false

/-- Mapping each element to a list and concatenating, front to back. -/
def flatAll (g : α → List β) : List α → List β
  | [] => []
  | a :: l => g a ++ flatAll g l

/-- A sample host with three functions, the middle one failing to
decompile, used to evaluate the theorems on concrete inputs. -/
def sampleHost : Host where
  programName := "prog"
  languageID := "AARCH64:LE:64:AppleSilicon"
  functions := [0, 1, 2]
  decompile := fun f =>
    if f = 1 then ⟨false, ""⟩
    else ⟨true, "void fn" ++ toString f ++ "(void);"⟩
  openProgramFails := false
  openFileFails := false
  writeFailsAt := none
  cmdlineArgs := []
  networkInput := []
  configValues := []

/-- A host on which opening the program raises. -/
def openFailHost : Host := { sampleHost with openProgramFails := true }

/-- A host on which opening the output file raises. -/
def fileFailHost : Host := { sampleHost with openFileFails := true }

/-- A host on which the first write call raises. -/
def writeFailHost : Host := { sampleHost with writeFailsAt := some 0 }

/-- A host whose function manager yields no functions. -/
def emptyHost : Host := { sampleHost with functions := [] }

/-- Two hosts that agree on all program behaviour and failure behaviour but
differ in command-line arguments, network input and configuration values. -/
def hostA : Host := sampleHost

/-- See hostA. -/
def hostB : Host :=
  { sampleHost with
      cmdlineArgs := ["--outdir", "/tmp/elsewhere"]
      networkInput := ["GET / HTTP/1.1"]
      configValues := [("outdir", "/tmp/elsewhere")] }

/-- A sample file system with pre-existing content at the output path. -/
def sampleFS : String → Option String := fun p =>
  if p = outPath sampleHost then some "stale old contents" else none

/-- A sample world for the frame theorem. -/
def sampleWorld : World := ⟨sampleFS, ["earlier output line"], sampleHost⟩

theorem flatAll_nil (g : α → List β) : flatAll g [] = [] := rfl

theorem flatAll_cons (g : α → List β) (a : α) (l : List α) :
    flatAll g (a :: l) = g a ++ flatAll g l := rfl

theorem concatAll_nil : concatAll [] = "" := rfl

theorem concatAll_cons (s : String) (l : List String) :
    concatAll (s :: l) = s ++ concatAll l := rfl

theorem callsOf_append (l1 l2 : List Event) :
    callsOf (l1 ++ l2) = callsOf l1 ++ callsOf l2 := by
  induction l1 with
  | nil => rfl
  | cons e l ih => cases e <;> simp [callsOf, ih]

theorem writeStep_of_err (h : Host) (s : String) (st : WState)
    (he : st.err.isSome) : writeStep h s st = st := by
  simp [writeStep, he]

theorem funcStep_of_err (h : Host) (f : GFunc) (st : WState)
    (he : st.err.isSome) : funcStep h f st = st := by
  simp [funcStep, he]

theorem loopFuncs_of_err (h : Host) (l : List GFunc) :
    ∀ st : WState, st.err.isSome → loopFuncs h l st = st := by
  induction l with
  | nil => intro st _; rfl
  | cons f l ih =>
      intro st he
      rw [loopFuncs, funcStep_of_err h f st he, ih st he]

theorem err_none_of_writeStep (h : Host) (s : String) (st : WState)
    (he : (writeStep h s st).err = none) : st.err = none := by
  by_cases hs : st.err.isSome
  · rw [writeStep_of_err h s st hs] at he; exact he
  · exact Option.not_isSome_iff_eq_none.mp hs

theorem err_none_of_funcStep (h : Host) (f : GFunc) (st : WState)
    (he : (funcStep h f st).err = none) : st.err = none := by
  by_cases hs : st.err.isSome
  · rw [funcStep_of_err h f st hs] at he; exact he
  · exact Option.not_isSome_iff_eq_none.mp hs

theorem err_none_of_loopFuncs (h : Host) (l : List GFunc) (st : WState)
    (he : (loopFuncs h l st).err = none) : st.err = none := by
  by_cases hs : st.err.isSome
  · rw [loopFuncs_of_err h l st hs] at he; exact he
  · exact Option.not_isSome_iff_eq_none.mp hs

theorem writeStep_ok (h : Host) (s : String) (st : WState)
    (he : (writeStep h s st).err = none) :
    st.err = none ∧
    (writeStep h s st).events = st.events ++ [Event.write s] ∧
    (writeStep h s st).chunks = st.chunks ++ [s] ∧
    (writeStep h s st).err = none := by
  have h0 : st.err = none := err_none_of_writeStep h s st he
  have hs : st.err.isSome = false := by rw [h0]; rfl
  refine ⟨h0, ?_⟩
  unfold writeStep at he ⊢
  rw [hs] at he ⊢
  simp only [Bool.false_eq_true, if_false] at he ⊢
  by_cases hw : h.writeFailsAt = some st.wcount
  · rw [if_pos hw] at he; simp at he
  · rw [if_neg hw]; exact ⟨rfl, rfl, h0⟩

theorem funcStep_ok (h : Host) (f : GFunc) (st : WState)
    (he : (funcStep h f st).err = none) :
    st.err = none ∧
    (funcStep h f st).events = st.events ++ contribEvents h f ∧
    (funcStep h f st).chunks = st.chunks ++ contribChunks h f ∧
    (funcStep h f st).err = none := by
  have h0 : st.err = none := err_none_of_funcStep h f st he
  have hs : st.err.isSome = false := by rw [h0]; rfl
  refine ⟨h0, ?_⟩
  unfold funcStep at he ⊢
  rw [hs] at he ⊢
  simp only [Bool.false_eq_true, if_false] at he ⊢
  by_cases hc : (h.decompile f).decompileCompleted
  · rw [if_pos hc] at he ⊢
    obtain ⟨h1, e1, c1, r1⟩ := writeStep_ok h "\n\n" _ he
    obtain ⟨h2, e2, c2, r2⟩ := writeStep_ok h (h.decompile f).decompiledC _ h1
    refine ⟨?_, ?_, r1⟩
    · rw [e1, e2]; simp [contribEvents, hc, List.append_assoc]
    · rw [c1, c2]; simp [contribChunks, hc, List.append_assoc]
  · rw [if_neg hc] at he ⊢
    simp [contribEvents, contribChunks, hc, h0]

theorem loopFuncs_ok (h : Host) (l : List GFunc) :
    ∀ st : WState, (loopFuncs h l st).err = none →
    st.err = none ∧
    (loopFuncs h l st).events = st.events ++ flatAll (contribEvents h) l ∧
    (loopFuncs h l st).chunks = st.chunks ++ flatAll (contribChunks h) l := by
  induction l with
  | nil => intro st he; exact ⟨he, by simp [loopFuncs, flatAll], by simp [loopFuncs, flatAll]⟩
  | cons f l ih =>
      intro st he
      rw [loopFuncs] at he ⊢
      obtain ⟨h1, e1, c1⟩ := ih (funcStep h f st) he
      obtain ⟨h0, e0, c0, _⟩ := funcStep_ok h f st h1
      refine ⟨h0, ?_, ?_⟩
      · rw [e1, e0, flatAll_cons]; simp [List.append_assoc]
      · rw [c1, c0, flatAll_cons]; simp [List.append_assoc]

theorem writeStep_delta (h : Host) (s : String) (st : WState) :
    ∃ d, (writeStep h s st).events = st.events ++ d ∧
      ∀ e ∈ d, isBodyEvent e = true := by
  unfold writeStep
  by_cases h0 : st.err.isSome
  · refine ⟨[], ?_, by simp⟩; simp [h0]
  · simp only [h0, Bool.false_eq_true, if_false]
    by_cases hw : h.writeFailsAt = some st.wcount
    · refine ⟨[], ?_, by simp⟩; simp [h0, hw]
    · refine ⟨[Event.write s], ?_, by simp [isBodyEvent]⟩; simp [h0, hw]

theorem funcStep_delta (h : Host) (f : GFunc) (st : WState) :
    ∃ d, (funcStep h f st).events = st.events ++ d ∧
      ∀ e ∈ d, isBodyEvent e = true := by
  unfold funcStep
  by_cases h0 : st.err.isSome
  · refine ⟨[], ?_, by simp⟩; simp [h0]
  · simp only [h0, Bool.false_eq_true, if_false]
    by_cases hc : (h.decompile f).decompileCompleted
    · rw [if_pos hc]
      obtain ⟨d2, e2, b2⟩ :=
        writeStep_delta h (h.decompile f).decompiledC
          { st with events := st.events ++ [Event.decompileCall f] }
      obtain ⟨d3, e3, b3⟩ :=
        writeStep_delta h "\n\n"
          (writeStep h (h.decompile f).decompiledC
            { st with events := st.events ++ [Event.decompileCall f] })
      refine ⟨Event.decompileCall f :: (d2 ++ d3), ?_, ?_⟩
      · rw [e3, e2]; simp [List.append_assoc]
      · intro e hmem
        rcases List.mem_cons.mp hmem with h1 | h1
        · rw [h1]; rfl
        · rcases List.mem_append.mp h1 with h2 | h2
          · exact b2 e h2
          · exact b3 e h2
    · rw [if_neg hc]
      refine ⟨[Event.decompileCall f], by simp, ?_⟩
      intro e hmem
      rw [List.mem_singleton.mp hmem]; rfl

theorem loopFuncs_delta (h : Host) (l : List GFunc) :
    ∀ st : WState, ∃ d, (loopFuncs h l st).events = st.events ++ d ∧
      ∀ e ∈ d, isBodyEvent e = true := by
  induction l with
  | nil => intro st; exact ⟨[], by simp [loopFuncs], by simp⟩
  | cons f l ih =>
      intro st
      obtain ⟨d1, e1, b1⟩ := funcStep_delta h f st
      obtain ⟨d2, e2, b2⟩ := ih (funcStep h f st)
      refine ⟨d1 ++ d2, ?_, ?_⟩
      · rw [loopFuncs, e2, e1]; simp [List.append_assoc]
      · intro e hmem
        rcases List.mem_append.mp hmem with h1 | h1
        · exact b1 e h1
        · exact b2 e h1

theorem mainState_delta (h : Host) :
    ∃ B, (mainState h).events =
        Event.openProgram :: Event.openFile (outPath h) :: B ∧
      ∀ e ∈ B, isBodyEvent e = true := by
  obtain ⟨d1, e1, b1⟩ := writeStep_delta h (header1 h) (initState h)
  obtain ⟨d2, e2, b2⟩ :=
    writeStep_delta h (header2 h) (writeStep h (header1 h) (initState h))
  obtain ⟨d3, e3, b3⟩ :=
    loopFuncs_delta h h.functions
      (writeStep h (header2 h) (writeStep h (header1 h) (initState h)))
  refine ⟨d1 ++ d2 ++ d3, ?_, ?_⟩
  · rw [mainState, e3, e2, e1]; simp [initState, List.append_assoc]
  · intro e hmem
    rcases List.mem_append.mp hmem with h1 | h1
    · rcases List.mem_append.mp h1 with h2 | h2
      · exact b1 e h2
      · exact b2 e h2
    · exact b3 e h1

theorem fileOpened_split (h : Host) (ho : fileOpened h = true) :
    h.openProgramFails = false ∧ h.openFileFails = false := by
  unfold fileOpened at ho
  exact ⟨by simpa using (Bool.and_eq_true_iff.mp ho).1,
         by simpa using (Bool.and_eq_true_iff.mp ho).2⟩

theorem runScript_shape (h : Host) (ho : fileOpened h = true) :
    ∃ B T, (∀ e ∈ B, isBodyEvent e = true) ∧
      (runScript h).events =
        Event.openProgram :: Event.openFile (outPath h) ::
          (B ++ Event.closeFile :: T) ∧
      ((T = [] ∧ (runScript h).error.isSome = true ∧
          (runScript h).printed = []) ∨
       (T = [Event.printMsg (finalMsg h), Event.dispose] ∧
          (runScript h).error = none ∧
          (runScript h).printed = [finalMsg h])) := by
  obtain ⟨hp, hf⟩ := fileOpened_split h ho
  obtain ⟨B, eB, bB⟩ := mainState_delta h
  by_cases hm : (mainState h).err.isSome
  · refine ⟨B, [], bB, ?_, Or.inl ⟨rfl, ?_, ?_⟩⟩
    · simp [runScript, hp, hf, hm, eB]
    · simp [runScript, hp, hf, hm]
    · simp [runScript, hp, hf, hm]
  · refine ⟨B, [Event.printMsg (finalMsg h), Event.dispose], bB, ?_,
      Or.inr ⟨rfl, ?_, ?_⟩⟩
    · simp [runScript, hp, hf, hm, eB]
    · simp [runScript, hp, hf, hm]
    · simp [runScript, hp, hf, hm]

theorem runScript_ok (h : Host) (he : (runScript h).error = none) :
    fileOpened h = true ∧
    (runScript h).events =
      Event.openProgram :: Event.openFile (outPath h) ::
        Event.write (header1 h) :: Event.write (header2 h) ::
        (flatAll (contribEvents h) h.functions ++
          [Event.closeFile, Event.printMsg (finalMsg h), Event.dispose]) ∧
    (runScript h).chunks =
      header1 h :: header2 h :: flatAll (contribChunks h) h.functions ∧
    (runScript h).printed = [finalMsg h] := by
  by_cases hp : h.openProgramFails
  · simp [runScript, hp] at he
  by_cases hf : h.openFileFails
  · simp [runScript, hp, hf] at he
  by_cases hm : (mainState h).err.isSome
  · have herr : (runScript h).error = (mainState h).err := by
      simp [runScript, hp, hf, hm]
    rw [he] at herr
    rw [← herr] at hm
    simp at hm
  · have h2n : (mainState h).err = none := Option.not_isSome_iff_eq_none.mp hm
    rw [mainState] at h2n
    obtain ⟨h1n, e2, c2⟩ := loopFuncs_ok h h.functions _ h2n
    obtain ⟨h0n, e1, c1, _⟩ := writeStep_ok h (header2 h) _ h1n
    obtain ⟨_, e0, c0, _⟩ := writeStep_ok h (header1 h) _ h0n
    refine ⟨by simp [fileOpened, hp, hf], ?_, ?_, ?_⟩
    · have : (runScript h).events = (mainState h).events ++
          [Event.closeFile, Event.printMsg (finalMsg h), Event.dispose] := by
        simp [runScript, hp, hf, hm]
      rw [this, mainState, e2, e1, e0]
      simp [initState, List.append_assoc]
    · have : (runScript h).chunks = (mainState h).chunks := by
        simp [runScript, hp, hf, hm]
      rw [this, mainState, c2, c1, c0]
      simp [initState]
    · simp [runScript, hp, hf, hm]

theorem chunksFlat_eq (h : Host) (l : List GFunc) :
    flatAll (contribChunks h) l =
      flatAll (fun b => [b, "\n\n"])
        ((l.filter fun f => (h.decompile f).decompileCompleted).map
          fun f => (h.decompile f).decompiledC) := by
  induction l with
  | nil => rfl
  | cons f l ih =>
      by_cases hc : (h.decompile f).decompileCompleted
      · simp [flatAll_cons, contribChunks, hc, List.filter_cons, ih]
      · simp [flatAll_cons, contribChunks, hc, List.filter_cons, ih]

theorem concat_pairs (sep : String) (bl : List String) :
    concatAll (flatAll (fun b => [b, sep]) bl) =
      concatAll (bl.map fun b => b ++ sep) := by
  induction bl with
  | nil => rfl
  | cons b bl ih =>
      simp only [flatAll_cons, List.map_cons, List.cons_append, List.nil_append,
        concatAll_cons, ih, String.append_assoc]

theorem contribEvents_body (h : Host) (l : List GFunc) :
    ∀ e ∈ flatAll (contribEvents h) l, isBodyEvent e = true := by
  induction l with
  | nil => intro e he; simp [flatAll_nil] at he
  | cons f l ih =>
      intro e he
      rw [flatAll_cons] at he
      rcases List.mem_append.mp he with h1 | h1
      · unfold contribEvents at h1
        rcases List.mem_cons.mp h1 with h2 | h2
        · rw [h2]; rfl
        · by_cases hc : (h.decompile f).decompileCompleted
          · rw [if_pos hc] at h2
            rcases List.mem_cons.mp h2 with h3 | h3
            · rw [h3]; rfl
            · rw [List.mem_singleton.mp h3]; rfl
          · rw [if_neg hc] at h2; simp at h2
      · exact ih e h1

theorem callsOf_contrib (h : Host) (l : List GFunc) :
    callsOf (flatAll (contribEvents h) l) = l := by
  induction l with
  | nil => rfl
  | cons f l ih =>
      rw [flatAll_cons, callsOf_append]
      have hone : callsOf (contribEvents h f) = [f] := by
        unfold contribEvents
        by_cases hc : (h.decompile f).decompileCompleted
        · rw [if_pos hc]; rfl
        · rw [if_neg hc]; rfl
      rw [hone, ih]; rfl

theorem printed_cases (h : Host) :
    (runScript h).printed = [] ∨ (runScript h).printed = [finalMsg h] := by
  by_cases hp : h.openProgramFails
  · left; simp [runScript, hp]
  by_cases hf : h.openFileFails
  · left; simp [runScript, hp, hf]
  by_cases hm : (mainState h).err.isSome
  · left; simp [runScript, hp, hf, hm]
  · right; simp [runScript, hp, hf, hm]

theorem writeStep_congr (h1 h2 : Host) (hw : h1.writeFailsAt = h2.writeFailsAt) :
    ∀ (s : String) (st : WState), writeStep h1 s st = writeStep h2 s st := by
  intro s st; unfold writeStep; rw [hw]

theorem funcStep_congr (h1 h2 : Host) (hw : h1.writeFailsAt = h2.writeFailsAt)
    (f : GFunc) (hd : h1.decompile f = h2.decompile f) :
    ∀ st : WState, funcStep h1 f st = funcStep h2 f st := by
  intro st
  unfold funcStep
  rw [hd]
  simp only [writeStep_congr h1 h2 hw]

theorem loopFuncs_congr (h1 h2 : Host) (hw : h1.writeFailsAt = h2.writeFailsAt) :
    ∀ l : List GFunc, (∀ f ∈ l, h1.decompile f = h2.decompile f) →
    ∀ st : WState, loopFuncs h1 l st = loopFuncs h2 l st := by
  intro l
  induction l with
  | nil => intro _ st; rfl
  | cons f l ih =>
      intro hd st
      rw [loopFuncs, loopFuncs,
        funcStep_congr h1 h2 hw f (hd f (List.mem_cons_self f l)),
        ih (fun g hg => hd g (List.mem_cons_of_mem f hg))]

/-- C1: for every run that finishes without an uncaught exception, the
written output file is exactly a two-line header (one comment line with the
program name, one comment line with the language identifier) followed by a
blank line (the trailing newline of the second header write), then the
decompiled-code blocks of the successfully decompiled functions, each block
followed by a blank-line separator. -/
theorem output_file_layout (h : Host) (he : (runScript h).error = none) :
    writtenContent h =
      "// Decompiled code for " ++ h.programName ++ "\n" ++
      "// Language: " ++ h.languageID ++ "\n\n" ++
      concatAll ((completedBlocks h).map fun b => b ++ "\n\n") := by
  obtain ⟨-, -, hc, -⟩ := runScript_ok h he
  unfold writtenContent
  rw [hc, concatAll_cons, concatAll_cons]
  have hblocks : flatAll (contribChunks h) h.functions =
      flatAll (fun b => [b, "\n\n"]) (completedBlocks h) :=
    chunksFlat_eq h h.functions
  rw [hblocks, concat_pairs]
  simp only [header1, header2, String.append_assoc]

/-- Evaluation of output_file_layout on a concrete host. -/
theorem output_file_layout_witness :
    writtenContent sampleHost =
      "// Decompiled code for " ++ sampleHost.programName ++ "\n" ++
      "// Language: " ++ sampleHost.languageID ++ "\n\n" ++
      concatAll ((completedBlocks sampleHost).map fun b => b ++ "\n\n") :=
  output_file_layout sampleHost (by decide)

/-- C2: for every function iterated, its decompiled C text is written to
the output file iff the decompile result reports completion; a function
whose decompilation does not complete contributes nothing, and no
diagnostic of any kind is produced: the only print of the run is the final
completion message. -/
theorem silent_skip_on_incomplete (h : Host)
    (he : (runScript h).error = none) :
    (runScript h).chunks =
      header1 h :: header2 h ::
        flatAll (fun f =>
          if (h.decompile f).decompileCompleted then
            [(h.decompile f).decompiledC, "\n\n"]
          else []) h.functions ∧
    (runScript h).printed = [finalMsg h] ∧
    ∀ s, Event.printMsg s ∈ (runScript h).events → s = finalMsg h := by
  obtain ⟨-, hev, hc, hpr⟩ := runScript_ok h he
  refine ⟨hc, hpr, ?_⟩
  intro s hs
  rw [hev] at hs
  simp only [List.mem_cons, List.mem_append, List.mem_singleton] at hs
  rcases hs with h1 | h1 | h1 | h1 | h1 | h1 | h1 | h1
  · exact absurd h1 (by simp)
  · exact absurd h1 (by simp)
  · exact absurd h1 (by simp)
  · exact absurd h1 (by simp)
  · have := contribEvents_body h h.functions _ h1
    simp [isBodyEvent] at this
  · exact absurd h1 (by simp)
  · exact (Event.printMsg.injEq s (finalMsg h)).mp h1
  · exact absurd h1 (by simp)

/-- Evaluation of silent_skip_on_incomplete on a concrete host: sampleHost
has a function (id 1) that fails to decompile, and the printed output is
only the completion message. -/
theorem silent_skip_on_incomplete_witness :
    (runScript sampleHost).printed = [finalMsg sampleHost] :=
  (silent_skip_on_incomplete sampleHost (by decide)).2.1

/-- C3: decompilation is requested exactly once for every function the
function manager's iterator yields, sequentially in the iterator's order,
and the successfully decompiled blocks appear in the output file in that
same order. -/
theorem decompile_in_order (h : Host) (he : (runScript h).error = none) :
    callsOf (runScript h).events = h.functions ∧
    (runScript h).chunks =
      header1 h :: header2 h ::
        flatAll (fun b => [b, "\n\n"]) (completedBlocks h) := by
  obtain ⟨-, hev, hc, -⟩ := runScript_ok h he
  constructor
  · rw [hev]
    simp only [callsOf, callsOf_append, callsOf_contrib, List.append_nil]
  · have hblocks : flatAll (contribChunks h) h.functions =
        flatAll (fun b => [b, "\n\n"]) (completedBlocks h) :=
      chunksFlat_eq h h.functions
    rw [hc, hblocks]

/-- Evaluation of decompile_in_order on a concrete host. -/
theorem decompile_in_order_witness :
    callsOf (runScript sampleHost).events = sampleHost.functions :=
  (decompile_in_order sampleHost (by decide)).1

/-- C4: failures to open the program, to open the output file (which is
where a missing output directory surfaces, the script creating no
directory), or to write to it are handled nowhere: the run ends with the
corresponding uncaught error, and an erroring run never prints the
completion message and never reaches the dispose call. -/
theorem failures_propagate (h : Host) :
    (h.openProgramFails = true →
      runScript h =
        ⟨[Event.openProgram], [], some ScriptError.openProgramFailed, []⟩) ∧
    (h.openProgramFails = false → h.openFileFails = true →
      runScript h =
        ⟨[Event.openProgram], [], some ScriptError.openFileFailed, []⟩) ∧
    (fileOpened h = true → h.writeFailsAt = some 0 →
      (runScript h).error = some ScriptError.writeFailed) ∧
    ((runScript h).error.isSome = true →
      Event.dispose ∉ (runScript h).events ∧ (runScript h).printed = []) := by
  refine ⟨?_, ?_, ?_, ?_⟩
  · intro hp; simp [runScript, hp]
  · intro hp hf; simp [runScript, hp, hf]
  · intro ho hw
    obtain ⟨hp, hf⟩ := fileOpened_split h ho
    have h1 : writeStep h (header1 h) (initState h) =
        ⟨[Event.openProgram, Event.openFile (outPath h)], [], 1,
         some ScriptError.writeFailed⟩ := by
      unfold writeStep initState
      simp [hw]
    have h2 : mainState h =
        ⟨[Event.openProgram, Event.openFile (outPath h)], [], 1,
         some ScriptError.writeFailed⟩ := by
      rw [mainState, h1]
      rw [writeStep_of_err h (header2 h)
        ⟨[Event.openProgram, Event.openFile (outPath h)], [], 1,
         some ScriptError.writeFailed⟩ rfl]
      rw [loopFuncs_of_err h h.functions
        ⟨[Event.openProgram, Event.openFile (outPath h)], [], 1,
         some ScriptError.writeFailed⟩ rfl]
    simp [runScript, hp, hf, h2]
  · intro herr
    by_cases ho : fileOpened h = true
    · obtain ⟨B, T, bB, hev, hT⟩ := runScript_shape h ho
      rcases hT with ⟨hT0, -, hpr⟩ | ⟨-, hnone, -⟩
      · subst hT0
        refine ⟨?_, hpr⟩
        rw [hev]
        intro hmem
        simp only [List.mem_cons, List.mem_append] at hmem
        rcases hmem with h1 | h1 | h1 | h1 | h1
        · exact absurd h1 (by simp)
        · exact absurd h1 (by simp)
        · have := bB _ h1; simp [isBodyEvent] at this
        · exact absurd h1 (by simp)
        · simp at h1
      · rw [hnone] at herr; simp at herr
    · by_cases hp : h.openProgramFails
      · exact ⟨by simp [runScript, hp], by simp [runScript, hp]⟩
      · have hf : h.openFileFails = true := by
          by_contra hf
          have hp' : h.openProgramFails = false := by
            revert hp; cases h.openProgramFails <;> simp
          have hf' : h.openFileFails = false := by
            revert hf; cases h.openFileFails <;> simp
          exact ho (by simp [fileOpened, hp', hf'])
        exact ⟨by simp [runScript, hp, hf], by simp [runScript, hp, hf]⟩

/-- Evaluation of failures_propagate on a host whose program fails to
open. -/
theorem failures_propagate_witness :
    runScript openFailHost =
      ⟨[Event.openProgram], [], some ScriptError.openProgramFailed, []⟩ :=
  (failures_propagate openFailHost).1 rfl

/-- C5: the run is a deterministic function of the hardcoded output
directory and the host-provided behaviour: two hosts that agree on program
name, language identifier, the yielded function sequence, the per-function
decompile results, and the environment failure behaviour produce the same
output file path and identical runs (same events, same file contents, same
error and same printed lines), regardless of their command-line arguments,
network input or configuration values, which the script never reads. -/
theorem deterministic_output (h1 h2 : Host)
    (e1 : h1.programName = h2.programName)
    (e2 : h1.languageID = h2.languageID)
    (e3 : h1.functions = h2.functions)
    (e4 : ∀ f ∈ h1.functions, h1.decompile f = h2.decompile f)
    (e5 : h1.openProgramFails = h2.openProgramFails)
    (e6 : h1.openFileFails = h2.openFileFails)
    (e7 : h1.writeFailsAt = h2.writeFailsAt) :
    outPath h1 = outPath h2 ∧ runScript h1 = runScript h2 := by
  have hout : outPath h1 = outPath h2 := by unfold outPath; rw [e1]
  have hh1 : header1 h1 = header1 h2 := by unfold header1; rw [e1]
  have hh2 : header2 h1 = header2 h2 := by unfold header2; rw [e2]
  have hmsg : finalMsg h1 = finalMsg h2 := by unfold finalMsg; rw [hout]
  have hinit : initState h1 = initState h2 := by unfold initState; rw [hout]
  have hmain : mainState h1 = mainState h2 := by
    unfold mainState
    rw [hinit, hh1, hh2]
    simp only [writeStep_congr h1 h2 e7]
    rw [loopFuncs_congr h1 h2 e7 h1.functions e4, e3]
  refine ⟨hout, ?_⟩
  unfold runScript
  rw [e5, e6, hmain, hmsg]

/-- Evaluation of deterministic_output on two hosts differing only in
command-line arguments, network input and configuration values. -/
theorem deterministic_output_witness :
    outPath hostA = outPath hostB ∧ runScript hostA = runScript hostB :=
  deterministic_output hostA hostB rfl rfl rfl (fun _ _ => rfl) rfl rfl rfl

/-- C6: in every run that enters the with-block, the output file is opened
exactly once, every write to it occurs inside the block (after the open and
before the close), the file is closed exactly once on exit from the block —
also when an exception escapes the block — and nothing is written after the
close. -/
theorem with_block_lifecycle (h : Host) (ho : fileOpened h = true) :
    ∃ B T, (runScript h).events =
        Event.openProgram :: Event.openFile (outPath h) ::
          (B ++ Event.closeFile :: T) ∧
      (∀ e ∈ B, isBodyEvent e = true) ∧
      (T = [] ∨ T = [Event.printMsg (finalMsg h), Event.dispose]) ∧
      (∀ s, Event.write s ∈ (runScript h).events → Event.write s ∈ B) ∧
      (∀ q, Event.openFile q ∉ B) ∧ Event.closeFile ∉ B ∧
      (∀ e ∈ T, (∀ s, e ≠ Event.write s) ∧ e ≠ Event.closeFile ∧
        (∀ q, e ≠ Event.openFile q)) := by
  obtain ⟨B, T, bB, hev, hT⟩ := runScript_shape h ho
  refine ⟨B, T, hev, bB, ?_, ?_, ?_, ?_, ?_⟩
  · rcases hT with ⟨h0, -⟩ | ⟨h0, -⟩
    · exact Or.inl h0
    · exact Or.inr h0
  · intro s hs
    rw [hev] at hs
    simp only [List.mem_cons, List.mem_append] at hs
    rcases hs with h1 | h1 | h1 | h1 | h1
    · exact absurd h1 (by simp)
    · exact absurd h1 (by simp)
    · exact h1
    · exact absurd h1 (by simp)
    · rcases hT with ⟨h0, -⟩ | ⟨h0, -⟩
      · rw [h0] at h1; simp at h1
      · rw [h0] at h1; simp at h1
  · intro q hq
    have := bB _ hq; simp [isBodyEvent] at this
  · intro hq
    have := bB _ hq; simp [isBodyEvent] at this
  · intro e heT
    rcases hT with ⟨h0, -⟩ | ⟨h0, -⟩
    · rw [h0] at heT; simp at heT
    · rw [h0] at heT
      rcases List.mem_cons.mp heT with h2 | h2
      · subst h2
        exact ⟨fun s => by simp, by simp, fun q => by simp⟩
      · rw [List.mem_singleton.mp h2]
        exact ⟨fun s => by simp, by simp, fun q => by simp⟩

/-- Evaluation of with_block_lifecycle on a concrete host. -/
theorem with_block_lifecycle_witness :
    ∃ B T, (runScript sampleHost).events =
        Event.openProgram :: Event.openFile (outPath sampleHost) ::
          (B ++ Event.closeFile :: T) ∧
      (∀ e ∈ B, isBodyEvent e = true) ∧
      (T = [] ∨
        T = [Event.printMsg (finalMsg sampleHost), Event.dispose]) ∧
      (∀ s, Event.write s ∈ (runScript sampleHost).events →
        Event.write s ∈ B) ∧
      (∀ q, Event.openFile q ∉ B) ∧ Event.closeFile ∉ B ∧
      (∀ e ∈ T, (∀ s, e ≠ Event.write s) ∧ e ≠ Event.closeFile ∧
        (∀ q, e ≠ Event.openFile q)) :=
  with_block_lifecycle sampleHost rfl

/-- C7: the script never mutates or retains the host-owned objects it
touches: a run leaves the world's host program component unchanged, its
only file-system effect is at the single output path, and its only
standard-output effect is appending the run's printed lines, which are at
most the single completion message. -/
theorem host_objects_untouched (w : World) :
    (runWorld w).hostProgram = w.hostProgram ∧
    (∀ p, p ≠ outPath w.hostProgram → (runWorld w).fs p = w.fs p) ∧
    (runWorld w).stdout = w.stdout ++ (runScript w.hostProgram).printed ∧
    ((runScript w.hostProgram).printed = [] ∨
      (runScript w.hostProgram).printed = [finalMsg w.hostProgram]) := by
  refine ⟨rfl, ?_, rfl, printed_cases w.hostProgram⟩
  intro p hp
  by_cases ho : fileOpened w.hostProgram = true
  · simp [runWorld, runFS, ho, hp]
  · simp [runWorld, runFS, ho]

/-- Evaluation of host_objects_untouched at a path other than the output
path of the sample world. -/
theorem host_objects_untouched_witness :
    (runWorld sampleWorld).fs "/etc/hosts" = sampleWorld.fs "/etc/hosts" :=
  (host_objects_untouched sampleWorld).2.1 "/etc/hosts" (by decide)

/-- C8: the output file is opened in truncating mode: whenever it is
opened, its final contents are exactly this run's writes, independent of
any pre-existing contents; consequently running the script twice with
identical host-provided behaviour leaves the file system exactly as a
single run does (re-running is idempotent, not appending). -/
theorem truncating_idempotent (h : Host) (fs : String → Option String) :
    (fileOpened h = true →
      runFS h fs (outPath h) = some (writtenContent h)) ∧
    runFS h (runFS h fs) = runFS h fs := by
  constructor
  · intro ho; simp [runFS, ho]
  · apply funext; intro p
    by_cases ho : fileOpened h = true
    · by_cases hp : p = outPath h
      · simp [runFS, ho, hp]
      · simp [runFS, ho, hp]
    · simp [runFS, ho]

/-- Evaluation of truncating_idempotent on a file system holding stale
content at the output path: the run replaces it entirely. -/
theorem truncating_idempotent_witness :
    runFS sampleHost sampleFS (outPath sampleHost) =
      some (writtenContent sampleHost) :=
  (truncating_idempotent sampleHost sampleFS).1 rfl

/-- C9: when the function manager yields zero functions the run still
succeeds: the output file holds exactly the two header comment lines
followed by one blank line — no function blocks — and the completion
message is printed. -/
theorem empty_program_header_only (h : Host) (hf : h.functions = [])
    (he : (runScript h).error = none) :
    writtenContent h =
      "// Decompiled code for " ++ h.programName ++ "\n" ++
      "// Language: " ++ h.languageID ++ "\n\n" ∧
    (runScript h).printed = [finalMsg h] := by
  obtain ⟨-, -, hc, hpr⟩ := runScript_ok h he
  refine ⟨?_, hpr⟩
  unfold writtenContent
  rw [hc, hf, flatAll_nil, concatAll_cons, concatAll_cons, concatAll_nil]
  simp only [header1, header2, String.append_empty, String.append_assoc]

/-- Evaluation of empty_program_header_only on a host with no functions. -/
theorem empty_program_header_only_witness :
    writtenContent emptyHost =
      "// Decompiled code for " ++ emptyHost.programName ++ "\n" ++
      "// Language: " ++ emptyHost.languageID ++ "\n\n" :=
  (empty_program_header_only emptyHost rfl (by decide)).1

/-- C10: on a run with no exception, dispose is called exactly once,
strictly after the output file is closed and the completion message is
printed; when an exception escapes the with-block the file is still closed
(keeping what was written so far) but dispose is never called and nothing
is printed. -/
theorem dispose_last_or_never (h : Host) (ho : fileOpened h = true) :
    ((runScript h).error = none →
      ∃ E, (runScript h).events =
          E ++ [Event.closeFile, Event.printMsg (finalMsg h),
            Event.dispose] ∧
        Event.dispose ∉ E ∧ Event.closeFile ∉ E ∧
        ∀ s, Event.printMsg s ∉ E) ∧
    (∀ er, (runScript h).error = some er →
      Event.closeFile ∈ (runScript h).events ∧
      Event.dispose ∉ (runScript h).events ∧
      (runScript h).printed = []) := by
  obtain ⟨B, T, bB, hev, hT⟩ := runScript_shape h ho
  constructor
  · intro he
    rcases hT with ⟨-, hsome, -⟩ | ⟨hT2, -, -⟩
    · rw [he] at hsome; simp at hsome
    · subst hT2
      refine ⟨Event.openProgram :: Event.openFile (outPath h) :: B,
        ?_, ?_, ?_, ?_⟩
      · rw [hev]; simp
      · intro hmem
        rcases List.mem_cons.mp hmem with h1 | h1
        · simp at h1
        · rcases List.mem_cons.mp h1 with h2 | h2
          · simp at h2
          · have := bB _ h2; simp [isBodyEvent] at this
      · intro hmem
        rcases List.mem_cons.mp hmem with h1 | h1
        · simp at h1
        · rcases List.mem_cons.mp h1 with h2 | h2
          · simp at h2
          · have := bB _ h2; simp [isBodyEvent] at this
      · intro s hmem
        rcases List.mem_cons.mp hmem with h1 | h1
        · simp at h1
        · rcases List.mem_cons.mp h1 with h2 | h2
          · simp at h2
          · have := bB _ h2; simp [isBodyEvent] at this
  · intro er herr
    rcases hT with ⟨hT0, -, hpr⟩ | ⟨-, hnone, -⟩
    · subst hT0
      refine ⟨?_, ?_, hpr⟩
      · rw [hev]; simp
      · rw [hev]
        intro hmem
        simp only [List.mem_cons, List.mem_append] at hmem
        rcases hmem with h1 | h1 | h1 | h1 | h1
        · exact absurd h1 (by simp)
        · exact absurd h1 (by simp)
        · have := bB _ h1; simp [isBodyEvent] at this
        · exact absurd h1 (by simp)
        · simp at h1
    · rw [hnone] at herr; simp at herr

/-- Evaluation of dispose_last_or_never on a host whose first write
raises: the file is closed, dispose never runs, nothing is printed. -/
theorem dispose_last_or_never_witness :
    Event.closeFile ∈ (runScript writeFailHost).events ∧
    Event.dispose ∉ (runScript writeFailHost).events ∧
    (runScript writeFailHost).printed = [] :=
  (dispose_last_or_never writeFailHost rfl).2 ScriptError.writeFailed
    (by decide)

/-- Sanity check of the embedding on the sample host: the run succeeds and
the output file's write sequence is the header followed by the blocks of
the two functions that decompiled, with function 1 silently skipped. -/
theorem sampleHost_run_check :
    (runScript sampleHost).error = none ∧
    (runScript sampleHost).chunks =
      ["// Decompiled code for prog\n",
       "// Language: AARCH64:LE:64:AppleSilicon\n\n",
       "void fn0(void);", "\n\n", "void fn2(void);", "\n\n"] ∧
    callsOf (runScript sampleHost).events = [0, 1, 2] := by
  refine ⟨by decide, by decide, by decide⟩

end ExportDecomp
